import Mathlib

/-! INJ launcher (`inj.go`): argument rewriting and subprocess delegation.

A shallow embedding of `func main()` of `inj.go`, together with the parts of the
Go standard library it calls.

* A Go `string` is a Lean `String`.  The library functions below only inspect the
  ASCII bytes `/` and `.`, which never occur inside a multi-byte UTF-8 sequence, so
  the character-level algorithms agree with Go's byte-level ones.
* `path/filepath` is embedded in its Unix form (`Separator = '/'`, no volume names):
  `IsAbs`, `Clean`, `Join`, `Dir`.
* The operating system is an explicit input `OS`: the results of `os.Executable`,
  `os.Getwd`, `os.Stat` (a fixed filesystem state for the run) and of running the
  child process.
* `main` returns an `Outcome`: the command on which `cmd.Run()` was called (if any)
  and the way the launcher process ended.
-/

namespace Inj

/-! ## `path/filepath` (Unix) -/

/-- Go `filepath.IsAbs` on Unix: `strings.HasPrefix(path, "/")`. -/
def IsAbs (path : String) : Bool :=
  match path.data with
  | [] => false
  | c :: _ => c = '/'

/-- The `..` step of `filepath.Clean` when `out.w > dotdot`:
`out.w--; for out.w > dotdot && !isSep(out.index(out.w)) { out.w-- }`.
The output buffer is held in reverse (last written byte first), so `out.w` is the
length of the list and `out.index(out.w)` after a decrement is the byte just dropped. -/
def backtrack (dotdot : Nat) : List Char → List Char
  | [] => []
  | c :: rest => if dotdot < rest.length ∧ c ≠ '/' then backtrack dotdot rest else rest

/-- The main loop `for r < n { switch ... }` of `filepath.Clean`.  `c :: rest` is
`path[r:]`, `out` the output buffer in reverse, `dotdot` the index where `..` must
stop.  Every iteration consumes at least one byte of the path, so the length of the
remaining path is enough fuel. -/
def cleanLoop (rooted : Bool) : Nat → List Char → List Char → Nat → List Char
  | 0, _, out, _ => out
  | _ + 1, [], out, _ => out
  | fuel + 1, c :: rest, out, dotdot =>
    if c = '/' then
      -- empty path element
      cleanLoop rooted fuel rest out dotdot
    else if c = '.' ∧ (rest = [] ∨ rest.head? = some '/') then
      -- . element
      cleanLoop rooted fuel rest out dotdot
    else if c = '.' ∧ rest.head? = some '.' ∧ (rest.tail = [] ∨ rest.tail.head? = some '/') then
      -- .. element: remove to last separator
      if dotdot < out.length then
        cleanLoop rooted fuel rest.tail (backtrack dotdot out) dotdot
      else if rooted = false then
        let out2 := '.' :: '.' :: (if 0 < out.length then '/' :: out else out)
        cleanLoop rooted fuel rest.tail out2 out2.length
      else
        cleanLoop rooted fuel rest.tail out dotdot
    else
      -- real path element: add slash if needed, then copy the element
      let out1 :=
        if (rooted = true ∧ out.length ≠ 1) ∨ (rooted = false ∧ out.length ≠ 0) then '/' :: out
        else out
      cleanLoop rooted fuel ((c :: rest).dropWhile (fun x => x != '/'))
        (((c :: rest).takeWhile (fun x => x != '/')).reverse ++ out1) dotdot

/-- Go `filepath.Clean` on the bytes of a path (Unix: no volume name, `FromSlash`
is the identity). -/
def cleanChars (path : List Char) : List Char :=
  match path with
  | [] => ['.']
  | c :: rest =>
    let rooted : Bool := c = '/'
    let out :=
      if rooted then cleanLoop rooted rest.length rest ['/'] 1
      else cleanLoop rooted path.length path [] 0
    if out.length = 0 then ['.'] else out.reverse

/-- Go `filepath.Clean`. -/
def Clean (path : String) : String := ⟨cleanChars path.data⟩

/-- Go `strings.Join(elems, sep)` on bytes. -/
def stringsJoin (sep : List Char) : List (List Char) → List Char
  | [] => []
  | [e] => e
  | e :: es => e ++ sep ++ stringsJoin sep es

/-- Go `filepath.Join` on Unix: skip the leading empty elements, then
`Clean(strings.Join(elem[i:], "/"))`; the empty string when every element is empty. -/
def joinChars : List (List Char) → List Char
  | [] => []
  | e :: es => if e ≠ [] then cleanChars (stringsJoin ['/'] (e :: es)) else joinChars es

/-- Go `filepath.Join`. -/
def Join (elem : List String) : String := ⟨joinChars (elem.map String.data)⟩

/-- Go `filepath.Dir` on Unix: drop the bytes after the last separator, then `Clean`. -/
def Dir (path : String) : String :=
  ⟨cleanChars (path.data.reverse.dropWhile (fun x => x != '/')).reverse⟩

/-! ## `os` and `os/exec` -/

/-- The ways `os.Stat` can fail. -/
inductive StatError where
  | notExist
  | permission
  | other
  deriving DecidableEq, Repr

/-- The fields of `exec.Cmd` that `main` sets. `Path` holds the program name given to
`exec.Command`; looking it up on `PATH` is left to the operating system. -/
structure Cmd where
  Path : String
  Args : List String
  Dir : String
  deriving DecidableEq, Repr

/-- What happens to the child when `cmd.Run()` is called. -/
inductive ChildResult where
  | notStarted
  | exited (status : Nat)
  | signaled (sig : Nat)
  deriving DecidableEq, Repr

/-- The environment of one run of the launcher. `Stat p` is the `error` result of
`os.Stat(p)` (`none` is `nil`). -/
structure OS where
  Executable : Except String String
  Getwd : Except String String
  Stat : String → Option StatError
  child : Cmd → ChildResult

/-- The non-nil `error` values of `cmd.Run()`. -/
inductive RunError where
  | start
  | exitError
  deriving DecidableEq, Repr

/-- Go `exec.Command(name, arg...)`: `Args` is `name` followed by `arg`. -/
def Command (name : String) (arg : List String) : Cmd :=
  { Path := name, Args := name :: arg, Dir := "" }

/-- Go `cmd.Run()`: `nil` exactly when the child started and exited with status 0
(`ProcessState.Success`); an error when it could not be started, and an
`*ExitError` when it ended in any other way. -/
def Run (os : OS) (cmd : Cmd) : Option RunError :=
  match os.child cmd with
  | .notStarted => some .start
  | .exited 0 => none
  | .exited (_ + 1) => some .exitError
  | .signaled _ => some .exitError

/-- How the launcher process ends. -/
inductive Exit where
  | returned
  | osExit (code : Nat)
  | panicked
  deriving DecidableEq, Repr

/-- The exit status seen by the parent of the launcher: 0 when `main` returns,
the argument of `os.Exit`, and 2 for an unrecovered panic (the Go runtime prints
the panic and exits with status 2). -/
def Exit.status : Exit → Nat
  | .returned => 0
  | .osExit code => code
  | .panicked => 2

/-- Result of one run of `main`: the command on which `cmd.Run()` was called, if the
launcher got that far, and how the launcher ended. -/
structure Outcome where
  ran : Option Cmd
  exit : Exit
  deriving DecidableEq, Repr

/-! ## `main` -/

/-- The loop `for i, arg := range os.Args[1:] { ... args[i] = ... }` of `main`:
`i` is the loop index, the second argument the part of `os.Args[1:]` still to visit,
the third the slice `args` being filled in. -/
def rewriteLoop (os : OS) (userWorkDir : String) : Nat → List String → List String → List String
  | _, [], args => args
  | i, arg :: rest, args =>
    let args :=
      if IsAbs arg then
        args.set i arg
      else
        match os.Stat (Join [userWorkDir, arg]) with
        | none => args.set i (Join [userWorkDir, arg])
        | some _ => args.set i arg
    rewriteLoop os userWorkDir (i + 1) rest args

/-- Lines 27-39 of `main`: `args := make([]string, len(os.Args[1:]))` followed by the
rewriting loop over `os.Args[1:]` (`rawArgs`). -/
def resolveArgs (os : OS) (userWorkDir : String) (rawArgs : List String) : List String :=
  rewriteLoop os userWorkDir 0 rawArgs (List.replicate rawArgs.length "")

/-- The function `main` of `inj.go`. `osArgs` is `os.Args`; slicing an empty `os.Args`
with `[1:]` is a run-time panic. -/
def main (os : OS) (osArgs : List String) : Outcome :=
  match os.Executable with
  | .error _ => { ran := none, exit := .panicked }
  | .ok ex =>
    let exPath := Dir ex
    match os.Getwd with
    | .error _ => { ran := none, exit := .panicked }
    | .ok userWorkDir =>
      let scriptPath := Join ["dist", "inj.js"]
      match osArgs with
      | [] => { ran := none, exit := .panicked }
      | _ :: rawArgs =>
        let args := resolveArgs os userWorkDir rawArgs
        let cmd := Command "node" [scriptPath]
        let cmd := { cmd with Args := cmd.Args ++ args }
        let cmd := { cmd with Dir := exPath }
        match Run os cmd with
        | some _ => { ran := some cmd, exit := .osExit 1 }
        | none => { ran := some cmd, exit := .returned }

/-- The argument-rewriting contract as the specification words it, for one argument:
an absolute argument is kept; otherwise, if `InvocationDir / argument` exists it
replaces the argument, and if not the argument is kept. -/
def rewriteArg (os : OS) (invocationDir : String) (arg : String) : String :=
  if IsAbs arg then arg
  else if os.Stat (Join [invocationDir, arg]) = none then Join [invocationDir, arg]
  else arg

/-! ## Sample environments -/

/-- A filesystem holding `/home/u/work` and `/home/u/work/report.txt`; the launcher
is installed in `/opt/inj` and invoked from `/home/u/work`; the companion script
exits with status `status`. -/
def demoOS (status : Nat) : OS where
  Executable := .ok "/opt/inj/inj"
  Getwd := .ok "/home/u/work"
  Stat := fun p =>
    if p = "/home/u/work" ∨ p = "/home/u/work/report.txt" then none else some .notExist
  child := fun _ => .exited status

/-- An environment in which `os.Executable` fails. -/
def noExecutableOS : OS where
  Executable := .error "cannot find the executable"
  Getwd := .ok "/home/u/work"
  Stat := fun _ => none
  child := fun _ => .exited 0

/-- An environment in which `os.Getwd` fails. -/
def noGetwdOS : OS where
  Executable := .ok "/opt/inj/inj"
  Getwd := .error "cannot find the working directory"
  Stat := fun _ => none
  child := fun _ => .exited 0

/-- The filesystem of `demoOS`, with the launcher invoked while `$PWD` is
`/home/u/work/` (trailing separator): `os.Getwd` on Unix returns `$PWD` as it is
whenever it names the current directory. -/
def trailingSlashOS : OS where
  Executable := .ok "/opt/inj/inj"
  Getwd := .ok "/home/u/work/"
  Stat := fun p =>
    if p = "/home/u/work" ∨ p = "/home/u/work/" ∨ p = "/home/u/work/report.txt" then none
    else some .notExist
  child := fun _ => .exited 0

/-! ## `filepath.Clean` keeps a rooted path rooted -/

theorem backtrack_suffix (dotdot : Nat) (out : List Char) (h : dotdot < out.length) :
    ∃ pre, out = pre ++ backtrack dotdot out ∧ dotdot ≤ (backtrack dotdot out).length := by
  induction out with
  | nil => simp at h
  | cons c rest ih =>
    unfold backtrack
    split_ifs with hc
    · obtain ⟨pre, hpre, hlen⟩ := ih hc.1
      exact ⟨c :: pre, by rw [List.cons_append, ← hpre], hlen⟩
    · refine ⟨[c], rfl, ?_⟩
      simp at h
      omega

theorem getLast?_append_slash (l out : List Char) (h : out.getLast? = some '/') :
    (l ++ out).getLast? = some '/' := by
  have hne : out ≠ [] := by
    intro h0
    rw [h0] at h
    simp at h
  rw [List.getLast?_append_of_ne_nil _ hne]
  exact h

theorem getLast?_cons_slash (a : Char) (out : List Char) (h : out.getLast? = some '/') :
    (a :: out).getLast? = some '/' :=
  getLast?_append_slash [a] out h

theorem getLast?_backtrack (out : List Char) (h : 1 < out.length)
    (hl : out.getLast? = some '/') : (backtrack 1 out).getLast? = some '/' := by
  obtain ⟨pre, hpre, hlen⟩ := backtrack_suffix 1 out h
  have hne : backtrack 1 out ≠ [] := by
    intro h0
    rw [h0] at hlen
    simp at hlen
  rw [hpre, List.getLast?_append_of_ne_nil _ hne] at hl
  exact hl

theorem cleanLoop_rooted (fuel : Nat) (p out : List Char)
    (h : out.getLast? = some '/') :
    (cleanLoop true fuel p out 1).getLast? = some '/' := by
  induction fuel generalizing p out with
  | zero => simpa [cleanLoop] using h
  | succ fuel ih =>
    cases p with
    | nil => simpa [cleanLoop] using h
    | cons c rest =>
      rw [cleanLoop]
      split_ifs <;> (try dsimp only) <;> first
        | (exfalso; assumption)
        | (apply ih
           first
             | exact h
             | exact getLast?_backtrack out (by assumption) h
             | exact getLast?_append_slash _ _ (getLast?_cons_slash _ _ h)
             | exact getLast?_append_slash _ _ h)

theorem cleanChars_rooted (p : List Char) : (cleanChars ('/' :: p)).head? = some '/' := by
  have h := cleanLoop_rooted p.length p ['/'] (by simp)
  have hne : cleanLoop true p.length p ['/'] 1 ≠ [] := by
    intro h0
    rw [h0] at h
    simp at h
  simp only [cleanChars, decide_True, if_true]
  rw [if_neg (by simpa [List.length_eq_zero] using hne)]
  rw [List.head?_reverse]
  exact h

/-! ## `filepath.Clean` ignores one trailing separator -/

theorem takeWhile_append_slash (l : List Char) :
    (l ++ ['/']).takeWhile (fun x => x != '/') = l.takeWhile (fun x => x != '/') := by
  induction l with
  | nil => simp [List.takeWhile]
  | cons a l ih =>
    by_cases ha : a = '/'
    · simp [List.takeWhile, ha]
    · simp [List.takeWhile_cons, ha, ih]

theorem dropWhile_append_slash (l : List Char) :
    (l ++ ['/']).dropWhile (fun x => x != '/') = l.dropWhile (fun x => x != '/') ++ ['/'] := by
  induction l with
  | nil => simp [List.dropWhile]
  | cons a l ih =>
    by_cases ha : a = '/'
    · simp [List.dropWhile, ha]
    · simp [List.dropWhile_cons, ha, ih]

theorem length_dropWhile_le (q : Char → Bool) (l : List Char) :
    (l.dropWhile q).length ≤ l.length := by
  induction l with
  | nil => simp
  | cons a l ih =>
    rw [List.dropWhile_cons]
    split_ifs
    · exact Nat.le_succ_of_le ih
    · exact Nat.le_refl _

theorem head?_append_slash (rest : List Char) :
    (rest ++ ['/'] = [] ∨ (rest ++ ['/']).head? = some '/') ↔
      (rest = [] ∨ rest.head? = some '/') := by
  cases rest <;> simp

theorem dotdot_append_slash (rest : List Char) :
    ((rest ++ ['/']).head? = some '.' ∧
        ((rest ++ ['/']).tail = [] ∨ (rest ++ ['/']).tail.head? = some '/')) ↔
      (rest.head? = some '.' ∧ (rest.tail = [] ∨ rest.tail.head? = some '/')) := by
  cases rest with
  | nil => simp
  | cons d rest2 =>
    simp only [List.cons_append, List.head?_cons, List.tail_cons]
    rw [head?_append_slash]

theorem length_dropWhile_cons (c : Char) (rest : List Char) (hc : ¬c = '/') :
    ((c :: rest).dropWhile (fun x => x != '/')).length ≤ rest.length := by
  have hb : (c != '/') = true := by simp [hc]
  rw [List.dropWhile_cons, hb]
  exact length_dropWhile_le _ rest

theorem cleanLoop_append_slash (rooted : Bool) (f2 : Nat) :
    ∀ (f1 : Nat) (p out : List Char) (dotdot : Nat), p.length ≤ f2 → p.length + 1 ≤ f1 →
      cleanLoop rooted f1 (p ++ ['/']) out dotdot = cleanLoop rooted f2 p out dotdot := by
  induction f2 with
  | zero =>
    intro f1 p out dotdot h2 h1
    have hp : p = [] := List.length_eq_zero.mp (Nat.le_zero.mp h2)
    subst hp
    obtain ⟨g, rfl⟩ : ∃ g, f1 = g + 1 := ⟨f1 - 1, by omega⟩
    cases g <;> simp [cleanLoop]
  | succ f2 ih =>
    intro f1 p out dotdot h2 h1
    obtain ⟨g, rfl⟩ : ∃ g, f1 = g + 1 := ⟨f1 - 1, by omega⟩
    cases p with
    | nil => cases g <;> simp [cleanLoop]
    | cons c rest =>
      simp only [List.length_cons] at h1 h2
      have hr2 : rest.length ≤ f2 := by omega
      have hr1 : rest.length + 1 ≤ g := by omega
      rw [List.cons_append, cleanLoop, cleanLoop]
      by_cases hc : c = '/'
      · rw [if_pos hc, if_pos hc]
        exact ih g rest out dotdot hr2 hr1
      · rw [if_neg hc, if_neg hc]
        by_cases hd : c = '.' ∧ (rest = [] ∨ rest.head? = some '/')
        · rw [if_pos hd, if_pos ⟨hd.1, (head?_append_slash rest).mpr hd.2⟩]
          exact ih g rest out dotdot hr2 hr1
        · rw [if_neg hd, if_neg (fun h => hd ⟨h.1, (head?_append_slash rest).mp h.2⟩)]
          by_cases he : c = '.' ∧ rest.head? = some '.' ∧
              (rest.tail = [] ∨ rest.tail.head? = some '/')
          · rw [if_pos he, if_pos ⟨he.1, (dotdot_append_slash rest).mpr he.2⟩]
            have hne : rest ≠ [] := by
              intro h0
              rw [h0] at he
              simp at he
            have htail : (rest ++ ['/']).tail = rest.tail ++ ['/'] :=
              List.tail_append_of_ne_nil hne
            have hlen : rest.tail.length ≤ rest.length := by simp
            rw [htail]
            split_ifs
            · exact ih g _ _ dotdot (by omega) (by omega)
            · exact ih g _ _ _ (by omega) (by omega)
            · exact ih g _ _ _ (by omega) (by omega)
            · exact ih g _ _ dotdot (by omega) (by omega)
          · rw [if_neg he, if_neg (fun h => he ⟨h.1, (dotdot_append_slash rest).mp h.2⟩)]
            have e := dropWhile_append_slash (c :: rest)
            have e5 := takeWhile_append_slash (c :: rest)
            simp only [List.cons_append] at e e5
            have hl := length_dropWhile_cons c rest hc
            rw [e, e5]
            exact ih g _ _ dotdot (by omega) (by omega)

theorem cleanChars_append_slash (d : List Char) (hd : d ≠ []) :
    cleanChars (d ++ ['/']) = cleanChars d := by
  cases d with
  | nil => exact absurd rfl hd
  | cons c rest =>
    simp only [List.cons_append, cleanChars]
    by_cases hc : c = '/'
    · simp only [hc, decide_True, if_true, List.length_append, List.length_singleton]
      rw [cleanLoop_append_slash true rest.length (rest.length + 1) rest ['/'] 1
        (Nat.le_refl _) (Nat.le_refl _)]
    · simp only [hc, decide_False, Bool.false_eq_true, if_false]
      have := cleanLoop_append_slash false (c :: rest).length ((c :: rest).length + 1) (c :: rest) [] 0
        (Nat.le_refl _) (Nat.le_refl _)
      simp only [List.cons_append, List.length_cons] at this
      simp only [List.length_cons, List.length_append, List.length_singleton, List.length_nil,
        Nat.zero_add]
      rw [this]

/-! ## The rewriting loop is an element-wise map -/

theorem set_append_cons (pre : List String) (j v : String) (junk : List String) :
    (pre ++ j :: junk).set pre.length v = pre ++ v :: junk := by
  induction pre with
  | nil => rfl
  | cons a pre ih => simp [List.set, ih]

theorem rewriteLoop_step (os : OS) (wd arg : String) (i : Nat) (rest args : List String) :
    rewriteLoop os wd i (arg :: rest) args
      = rewriteLoop os wd (i + 1) rest (args.set i (rewriteArg os wd arg)) := by
  rw [rewriteLoop]
  unfold rewriteArg
  by_cases h : IsAbs arg = true
  · simp only [h, if_true]
  · simp only [h, if_false]
    cases hs : os.Stat (Join [wd, arg]) <;> simp

theorem rewriteLoop_eq (os : OS) (wd : String) (raw : List String) :
    ∀ (pre junk : List String), junk.length = raw.length →
      rewriteLoop os wd pre.length raw (pre ++ junk) = pre ++ raw.map (rewriteArg os wd) := by
  induction raw with
  | nil =>
    intro pre junk h
    have : junk = [] := List.length_eq_zero.mp h
    subst this
    simp [rewriteLoop]
  | cons arg rest ih =>
    intro pre junk h
    cases junk with
    | nil => simp at h
    | cons j junk =>
      rw [rewriteLoop_step, set_append_cons]
      have := ih (pre ++ [rewriteArg os wd arg]) junk (by simpa using h)
      simpa using this

theorem resolveArgs_eq_map (os : OS) (wd : String) (raw : List String) :
    resolveArgs os wd raw = raw.map (rewriteArg os wd) := by
  have := rewriteLoop_eq os wd raw [] (List.replicate raw.length "") (by simp)
  simpa [resolveArgs] using this

/-! ## Facts about `IsAbs` and `Join` -/

theorem IsAbs_iff (s : String) : IsAbs s = true ↔ ∃ rest, s.data = '/' :: rest := by
  unfold IsAbs
  cases h : s.data with
  | nil => simp
  | cons c rest => simp

theorem IsAbs_Join (wd arg : String) (h : IsAbs wd = true) : IsAbs (Join [wd, arg]) = true := by
  obtain ⟨rest, hrest⟩ := (IsAbs_iff wd).mp h
  have hj : (Join [wd, arg]).data = cleanChars ('/' :: (rest ++ ['/'] ++ arg.data)) := by
    simp [Join, joinChars, stringsJoin, hrest]
  have hh := cleanChars_rooted (rest ++ ['/'] ++ arg.data)
  rw [IsAbs_iff]
  rw [hj]
  cases hc : cleanChars ('/' :: (rest ++ ['/'] ++ arg.data)) with
  | nil => rw [hc] at hh; simp at hh
  | cons a l =>
    rw [hc] at hh
    simp at hh
    exact ⟨l, by rw [hh]⟩

theorem Join_empty (wd : String) (h : wd ≠ "") : Join [wd, ""] = Clean wd := by
  have hne : wd.data ≠ [] := by
    intro h0
    apply h
    cases wd
    simp_all
  show (⟨joinChars ([wd, ""].map String.data)⟩ : String) = ⟨cleanChars wd.data⟩
  congr 1
  simp only [List.map, joinChars, hne, ne_eq, not_false_eq_true, if_true, stringsJoin]
  rw [List.append_nil]
  exact cleanChars_append_slash wd.data hne

theorem rewriteArg_idem (os : OS) (wd arg : String) (h : IsAbs wd = true) :
    rewriteArg os wd (rewriteArg os wd arg) = rewriteArg os wd arg := by
  by_cases ha : IsAbs arg = true
  · simp [rewriteArg, ha]
  · by_cases hs : os.Stat (Join [wd, arg]) = none
    · have e : rewriteArg os wd arg = Join [wd, arg] := by simp [rewriteArg, ha, hs]
      rw [e]
      simp [rewriteArg, IsAbs_Join wd arg h]
    · have e : rewriteArg os wd arg = arg := by simp [rewriteArg, ha, hs]
      rw [e, e]

/-! ## The shape of a run of `main` -/

/-- The command `main` builds when both environment queries succeed. -/
theorem main_eq (os : OS) (ex wd prog : String) (raw : List String)
    (hex : os.Executable = .ok ex) (hwd : os.Getwd = .ok wd) :
    main os (prog :: raw) =
      { ran := some ⟨"node", "node" :: "dist/inj.js" :: raw.map (rewriteArg os wd), Dir ex⟩,
        exit :=
          match os.child ⟨"node", "node" :: "dist/inj.js" :: raw.map (rewriteArg os wd), Dir ex⟩ with
          | .exited 0 => .returned
          | _ => .osExit 1 } := by
  have hs : Join ["dist", "inj.js"] = "dist/inj.js" := by decide
  simp only [main, hex, hwd, hs, Command, resolveArgs_eq_map, List.cons_append, List.nil_append,
    List.singleton_append, Run]
  cases hc : os.child ⟨"node", "node" :: "dist/inj.js" :: raw.map (rewriteArg os wd), Dir ex⟩ with
  | notStarted => rfl
  | exited n => cases n <;> rfl
  | signaled s => rfl

/-! ## Sample runs -/

theorem Clean_samples :
    Clean "a/b/../../../c/./d//e/" = "../c/d/e" ∧ Clean "/../a/.." = "/" ∧ Clean "" = "." ∧
      Clean "/home/u/./work//" = "/home/u/work" ∧ Clean "..a/...//.b/.." = "..a/..." := by
  decide

theorem Join_Dir_samples :
    Join ["/home/u/work", "report.txt"] = "/home/u/work/report.txt" ∧
      Join ["/home/u/work", "../x"] = "/home/u/x" ∧ Join ["", "a", "", "b/"] = "a/b" ∧
      Join ["", ""] = "" ∧ Dir "/opt/inj/inj" = "/opt/inj" ∧ Dir "inj" = "." := by
  decide

theorem demo_run :
    main (demoOS 3) ["inj", "report.txt", "--verbose", "", "/etc/passwd", "../x"]
      = { ran := some { Path := "node",
                        Args := ["node", "dist/inj.js", "/home/u/work/report.txt", "--verbose",
                                 "/home/u/work", "/etc/passwd", "../x"],
                        Dir := "/opt/inj" },
          exit := .osExit 1 } := by
  decide

/-! ## Argument rewriting -/

/-- C1: with an absolute invocation directory, a non-absolute argument whose joined
path passes the existence check reaches the child as `Join(InvocationDir, arg)`, at
the position of the argument, and that element is an absolute path. -/
theorem main_rewrites_existing_relative (os : OS) (ex wd prog arg : String)
    (raw : List String) (i : Nat)
    (hex : os.Executable = .ok ex) (hwd : os.Getwd = .ok wd) (habs : IsAbs wd = true)
    (hi : raw[i]? = some arg) (hrel : IsAbs arg = false)
    (hstat : os.Stat (Join [wd, arg]) = none) :
    ∃ cmd, (main os (prog :: raw)).ran = some cmd ∧
      cmd.Args[i + 2]? = some (Join [wd, arg]) ∧ IsAbs (Join [wd, arg]) = true := by
  refine ⟨_, by rw [main_eq os ex wd prog raw hex hwd], ?_, IsAbs_Join wd arg habs⟩
  simp [List.getElem?_cons_succ, List.getElem?_map, hi, rewriteArg, hrel, hstat]

/-- Witness of C1: `report.txt`, present in `/home/u/work`, reaches the child as
`/home/u/work/report.txt`, its sole argument after the script path. -/
theorem main_rewrites_existing_relative_witness :
    ∃ cmd, (main (demoOS 0) ["inj", "report.txt"]).ran = some cmd ∧
      cmd.Args[0 + 2]? = some (Join ["/home/u/work", "report.txt"]) ∧
      IsAbs (Join ["/home/u/work", "report.txt"]) = true :=
  main_rewrites_existing_relative (demoOS 0) "/opt/inj/inj" "/home/u/work" "inj" "report.txt"
    ["report.txt"] 0 rfl rfl (by decide) rfl (by decide) (by decide)

/-- C2: an absolute argument reaches the child unchanged, whatever the filesystem
state (`os.Stat`) and the invocation directory are. -/
theorem main_keeps_absolute (os : OS) (ex wd prog arg : String) (raw : List String) (i : Nat)
    (hex : os.Executable = .ok ex) (hwd : os.Getwd = .ok wd)
    (hi : raw[i]? = some arg) (habs : IsAbs arg = true) :
    ∃ cmd, (main os (prog :: raw)).ran = some cmd ∧ cmd.Args[i + 2]? = some arg := by
  refine ⟨_, by rw [main_eq os ex wd prog raw hex hwd], ?_⟩
  simp [List.getElem?_cons_succ, List.getElem?_map, hi, rewriteArg, habs]

/-- Witness of C2: `/etc/passwd` is passed on as it is. -/
theorem main_keeps_absolute_witness :
    ∃ cmd, (main (demoOS 0) ["inj", "report.txt", "/etc/passwd"]).ran = some cmd ∧
      cmd.Args[1 + 2]? = some "/etc/passwd" :=
  main_keeps_absolute (demoOS 0) "/opt/inj/inj" "/home/u/work" "inj" "/etc/passwd"
    ["report.txt", "/etc/passwd"] 1 rfl rfl rfl (by decide)

/-- C3: a non-absolute argument whose existence check fails, with any error, reaches
the child unchanged; the launcher does not panic, calls `cmd.Run()`, and its exit is
decided by the child alone. -/
theorem main_keeps_missing_relative (os : OS) (ex wd prog arg : String) (raw : List String)
    (i : Nat) (e : StatError)
    (hex : os.Executable = .ok ex) (hwd : os.Getwd = .ok wd)
    (hi : raw[i]? = some arg) (hrel : IsAbs arg = false)
    (hstat : os.Stat (Join [wd, arg]) = some e) :
    ∃ cmd, (main os (prog :: raw)).ran = some cmd ∧ cmd.Args[i + 2]? = some arg ∧
      (main os (prog :: raw)).exit ≠ .panicked ∧
      ((main os (prog :: raw)).exit = .returned ↔ os.child cmd = .exited 0) := by
  rw [main_eq os ex wd prog raw hex hwd]
  refine ⟨_, rfl, ?_, ?_, ?_⟩
  · simp [List.getElem?_cons_succ, List.getElem?_map, hi, rewriteArg, hrel, hstat]
  · dsimp only
    split <;> simp
  · dsimp only
    split
    · rename_i h
      simp [h]
    · rename_i h
      constructor
      · intro h0
        cases h0
      · intro h0
        exact absurd h0 (h)

/-- Witness of C3: `--verbose` names no entry of `/home/u/work` and is passed on as
`--verbose`. -/
theorem main_keeps_missing_relative_witness :
    ∃ cmd, (main (demoOS 0) ["inj", "--verbose"]).ran = some cmd ∧
      cmd.Args[0 + 2]? = some "--verbose" ∧
      (main (demoOS 0) ["inj", "--verbose"]).exit ≠ .panicked ∧
      ((main (demoOS 0) ["inj", "--verbose"]).exit = .returned ↔
        (demoOS 0).child cmd = .exited 0) :=
  main_keeps_missing_relative (demoOS 0) "/opt/inj/inj" "/home/u/work" "inj" "--verbose"
    ["--verbose"] 0 .notExist rfl rfl rfl (by decide) (by decide)

/-- C4: the resolved argument list handed to the child has the length of the raw
list, and its i-th element is a function of the i-th raw element alone (given the
invocation directory and the filesystem): the rewriting is an element-wise map. -/
theorem main_rewriting_elementwise (os : OS) (ex wd prog : String) (raw : List String)
    (hex : os.Executable = .ok ex) (hwd : os.Getwd = .ok wd) :
    (resolveArgs os wd raw).length = raw.length ∧
      (∀ i : Nat, (resolveArgs os wd raw)[i]? = (raw[i]?).map (rewriteArg os wd)) ∧
      resolveArgs os wd raw = raw.map (rewriteArg os wd) ∧
      ∃ cmd, (main os (prog :: raw)).ran = some cmd ∧
        cmd.Args.drop 2 = resolveArgs os wd raw := by
  refine ⟨?_, ?_, resolveArgs_eq_map os wd raw, _, by rw [main_eq os ex wd prog raw hex hwd], ?_⟩
  · simp [resolveArgs_eq_map]
  · intro i
    simp [resolveArgs_eq_map, List.getElem?_map]
  · simp [resolveArgs_eq_map]

/-- Witness of C4: five arguments of every kind give five resolved arguments, each
the image of the one at its position. -/
theorem main_rewriting_elementwise_witness :
    (resolveArgs (demoOS 0) "/home/u/work"
        ["report.txt", "--verbose", "", "/etc/passwd", "../x"]).length
        = ["report.txt", "--verbose", "", "/etc/passwd", "../x"].length ∧
      (∀ i : Nat, (resolveArgs (demoOS 0) "/home/u/work"
          ["report.txt", "--verbose", "", "/etc/passwd", "../x"])[i]?
        = (["report.txt", "--verbose", "", "/etc/passwd", "../x"][i]?).map
            (rewriteArg (demoOS 0) "/home/u/work")) ∧
      resolveArgs (demoOS 0) "/home/u/work"
          ["report.txt", "--verbose", "", "/etc/passwd", "../x"]
        = ["report.txt", "--verbose", "", "/etc/passwd", "../x"].map
            (rewriteArg (demoOS 0) "/home/u/work") ∧
      ∃ cmd, (main (demoOS 0)
            ["inj", "report.txt", "--verbose", "", "/etc/passwd", "../x"]).ran = some cmd ∧
        cmd.Args.drop 2 = resolveArgs (demoOS 0) "/home/u/work"
          ["report.txt", "--verbose", "", "/etc/passwd", "../x"] :=
  main_rewriting_elementwise (demoOS 0) "/opt/inj/inj" "/home/u/work" "inj"
    ["report.txt", "--verbose", "", "/etc/passwd", "../x"] rfl rfl

/-! ## Running the child and exit status -/

/-- C5: when both environment queries succeed, the exit status of the launcher is 0
exactly when the child started and ended with status 0; in every other case (not
started, non-zero status, killed) it is exactly 1, whatever the status of the child,
so it differs from a child status n whenever n is neither 0 nor 1. -/
theorem main_exit_status (os : OS) (ex wd prog : String) (raw : List String)
    (hex : os.Executable = .ok ex) (hwd : os.Getwd = .ok wd) :
    ∃ cmd, (main os (prog :: raw)).ran = some cmd ∧
      ((main os (prog :: raw)).exit.status = 0 ↔ os.child cmd = .exited 0) ∧
      (os.child cmd ≠ .exited 0 → (main os (prog :: raw)).exit.status = 1) ∧
      (∀ n, os.child cmd = .exited n → n ≠ 0 → n ≠ 1 →
        (main os (prog :: raw)).exit.status ≠ n) := by
  rw [main_eq os ex wd prog raw hex hwd]
  refine ⟨_, rfl, ?_⟩
  dsimp only
  cases hc : os.child ⟨"node", "node" :: "dist/inj.js" :: raw.map (rewriteArg os wd), Dir ex⟩ with
  | notStarted => simp [Exit.status]
  | signaled s => simp [Exit.status]
  | exited n =>
    cases n with
    | zero => simp [Exit.status]
    | succ m =>
      simp only [Exit.status]
      refine ⟨by simp, by simp, ?_⟩
      intro n hn h0 h1 h
      exact h1 h.symm

/-- Witness of C5: a companion script that exits with status 3 gives the launcher
the exit status 1. -/
theorem main_exit_status_witness :
    ∃ cmd, (main (demoOS 3) ["inj", "report.txt"]).ran = some cmd ∧
      ((main (demoOS 3) ["inj", "report.txt"]).exit.status = 0 ↔
        (demoOS 3).child cmd = .exited 0) ∧
      ((demoOS 3).child cmd ≠ .exited 0 →
        (main (demoOS 3) ["inj", "report.txt"]).exit.status = 1) ∧
      (∀ n, (demoOS 3).child cmd = .exited n → n ≠ 0 → n ≠ 1 →
        (main (demoOS 3) ["inj", "report.txt"]).exit.status ≠ n) :=
  main_exit_status (demoOS 3) "/opt/inj/inj" "/home/u/work" "inj" ["report.txt"] rfl rfl

/-- C6: the command that is run is `node dist/inj.js <ResolvedArgs...>` in the
directory of the executable: program `node`, first argument the relative script path
`dist/inj.js`, which joined to the working directory of the command is
`InstallRoot/dist/inj.js`, then exactly the resolved arguments in order, and working
directory `Dir(executable)`; with no raw argument nothing follows the script path. -/
theorem main_command (os : OS) (ex wd prog : String) (raw : List String)
    (hex : os.Executable = .ok ex) (hwd : os.Getwd = .ok wd) :
    (main os (prog :: raw)).ran
        = some { Path := "node", Args := ["node", "dist/inj.js"] ++ resolveArgs os wd raw,
                 Dir := Dir ex } ∧
      IsAbs "dist/inj.js" = false ∧
      Join [Dir ex, "dist/inj.js"] = Join [Dir ex, "dist", "inj.js"] ∧
      (main os [prog]).ran
        = some { Path := "node", Args := ["node", "dist/inj.js"], Dir := Dir ex } := by
  refine ⟨?_, by decide, ?_, ?_⟩
  · rw [main_eq os ex wd prog raw hex hwd, resolveArgs_eq_map]
    rfl
  · rfl
  · rw [main_eq os ex wd prog [] hex hwd]
    rfl

/-- Witness of C6: the launcher installed in `/opt/inj`, started with no argument. -/
theorem main_command_witness :
    (main (demoOS 0) ("inj" :: [])).ran
        = some { Path := "node",
                 Args := ["node", "dist/inj.js"] ++ resolveArgs (demoOS 0) "/home/u/work" [],
                 Dir := Dir "/opt/inj/inj" } ∧
      IsAbs "dist/inj.js" = false ∧
      Join [Dir "/opt/inj/inj", "dist/inj.js"] = Join [Dir "/opt/inj/inj", "dist", "inj.js"] ∧
      (main (demoOS 0) ["inj"]).ran
        = some { Path := "node", Args := ["node", "dist/inj.js"], Dir := Dir "/opt/inj/inj" } :=
  main_command (demoOS 0) "/opt/inj/inj" "/home/u/work" "inj" [] rfl rfl

/-- C7: when `os.Executable` or `os.Getwd` fails, `cmd.Run()` is never called,
whatever the arguments, the existence checks and the child would be: no subprocess
is started. -/
theorem main_env_failure_no_child (os : OS) (osArgs : List String)
    (h : (∃ e, os.Executable = .error e) ∨ (∃ e, os.Getwd = .error e)) :
    (main os osArgs).ran = none := by
  unfold main
  rcases h with ⟨e, he⟩ | ⟨e, he⟩
  · rw [he]
  · rw [he]
    cases os.Executable <;> rfl

/-- Witness of C7: `os.Getwd` fails and nothing is run. -/
theorem main_env_failure_no_child_witness :
    (main noGetwdOS ["inj", "report.txt"]).ran = none :=
  main_env_failure_no_child noGetwdOS ["inj", "report.txt"] (Or.inr ⟨_, rfl⟩)

/-- C8, as stated, fails: with `os.Executable` returning an error the launcher ends
with exit status 2, not 1. -/
theorem main_env_failure_status_counterexample :
    (∃ e, noExecutableOS.Executable = .error e) ∧
      (main noExecutableOS ["inj", "report.txt"]).exit.status = 2 ∧
      (main noExecutableOS ["inj", "report.txt"]).exit.status ≠ 1 :=
  ⟨⟨_, rfl⟩, by decide, by decide⟩

/-- C8, amended: when `os.Executable` or `os.Getwd` fails, `main` ends in an
unrecovered panic, which the Go runtime turns into exit status 2: non-zero, and
different from the status 1 of a failed child. -/
theorem main_env_failure_panics (os : OS) (osArgs : List String)
    (h : (∃ e, os.Executable = .error e) ∨ (∃ e, os.Getwd = .error e)) :
    (main os osArgs).exit = .panicked ∧ (main os osArgs).exit.status = 2 ∧
      (main os osArgs).exit.status ≠ 0 ∧ (main os osArgs).exit.status ≠ 1 := by
  have hp : (main os osArgs).exit = .panicked := by
    unfold main
    rcases h with ⟨e, he⟩ | ⟨e, he⟩
    · rw [he]
    · rw [he]
      cases os.Executable <;> rfl
  rw [hp]
  exact ⟨rfl, rfl, by decide, by decide⟩

/-- Witness of the amended C8: `os.Getwd` fails. -/
theorem main_env_failure_panics_witness :
    (main noGetwdOS ["inj"]).exit = .panicked ∧ (main noGetwdOS ["inj"]).exit.status = 2 ∧
      (main noGetwdOS ["inj"]).exit.status ≠ 0 ∧ (main noGetwdOS ["inj"]).exit.status ≠ 1 :=
  main_env_failure_panics noGetwdOS ["inj"] (Or.inr ⟨_, rfl⟩)

/-! ## Behaviour of the rewriting -/

/-- C9: with an absolute invocation directory and a fixed filesystem, rewriting the
resolved list again gives the resolved list. -/
theorem resolveArgs_idempotent (os : OS) (wd : String) (raw : List String)
    (habs : IsAbs wd = true) :
    resolveArgs os wd (resolveArgs os wd raw) = resolveArgs os wd raw := by
  rw [resolveArgs_eq_map, resolveArgs_eq_map, List.map_map]
  apply List.map_congr_left
  intro a _
  exact rewriteArg_idem os wd a habs

/-- Witness of C9: the five sample arguments in `/home/u/work`. -/
theorem resolveArgs_idempotent_witness :
    resolveArgs (demoOS 0) "/home/u/work"
        (resolveArgs (demoOS 0) "/home/u/work"
          ["report.txt", "--verbose", "", "/etc/passwd", "../x"])
      = resolveArgs (demoOS 0) "/home/u/work"
          ["report.txt", "--verbose", "", "/etc/passwd", "../x"] :=
  resolveArgs_idempotent (demoOS 0) "/home/u/work"
    ["report.txt", "--verbose", "", "/etc/passwd", "../x"] (by decide)

/-- C10, as stated, fails: the invocation directory `/home/u/work/` exists, yet
`Join(InvocationDir, "")` is `/home/u/work`, not the invocation directory path
itself, and that cleaned path is what the child receives. -/
theorem main_empty_argument_counterexample :
    trailingSlashOS.Getwd = .ok "/home/u/work/" ∧
      trailingSlashOS.Stat "/home/u/work/" = none ∧
      Join ["/home/u/work/", ""] ≠ "/home/u/work/" ∧
      (main trailingSlashOS ["inj", ""]).ran
        = some { Path := "node", Args := ["node", "dist/inj.js", "/home/u/work"],
                 Dir := "/opt/inj" } :=
  ⟨rfl, by decide, by decide, by decide⟩

/-- C10, amended: for a non-empty invocation directory the empty argument is not
absolute and `Join(InvocationDir, "")` is `Clean(InvocationDir)`; when that path
passes the existence check the child receives `Clean(InvocationDir)` in place of the
empty string, which is the invocation directory itself when it is already clean. -/
theorem main_empty_argument (os : OS) (ex wd prog : String) (raw : List String) (i : Nat)
    (hex : os.Executable = .ok ex) (hwd : os.Getwd = .ok wd) (hne : wd ≠ "")
    (hi : raw[i]? = some "") (hstat : os.Stat (Clean wd) = none) :
    IsAbs "" = false ∧ Join [wd, ""] = Clean wd ∧ os.Stat (Join [wd, ""]) = none ∧
      (∃ cmd, (main os (prog :: raw)).ran = some cmd ∧ cmd.Args[i + 2]? = some (Clean wd)) ∧
      (Clean wd = wd →
        ∃ cmd, (main os (prog :: raw)).ran = some cmd ∧ cmd.Args[i + 2]? = some wd) := by
  have hj := Join_empty wd hne
  have hrel : IsAbs "" = false := by decide
  have key : ∃ cmd, (main os (prog :: raw)).ran = some cmd ∧
      cmd.Args[i + 2]? = some (Clean wd) := by
    refine ⟨_, by rw [main_eq os ex wd prog raw hex hwd], ?_⟩
    simp [List.getElem?_cons_succ, List.getElem?_map, hi, rewriteArg, hrel, hj, hstat]
  refine ⟨hrel, hj, by rw [hj]; exact hstat, key, ?_⟩
  intro hc
  rw [hc] at key
  exact key

/-- Witness of the amended C10: invoked from `/home/u/work`, the empty argument
becomes `/home/u/work`. -/
theorem main_empty_argument_witness :
    IsAbs "" = false ∧ Join ["/home/u/work", ""] = Clean "/home/u/work" ∧
      (demoOS 0).Stat (Join ["/home/u/work", ""]) = none ∧
      (∃ cmd, (main (demoOS 0) ["inj", "-n", ""]).ran = some cmd ∧
        cmd.Args[1 + 2]? = some (Clean "/home/u/work")) ∧
      (Clean "/home/u/work" = "/home/u/work" →
        ∃ cmd, (main (demoOS 0) ["inj", "-n", ""]).ran = some cmd ∧
          cmd.Args[1 + 2]? = some "/home/u/work") :=
  main_empty_argument (demoOS 0) "/opt/inj/inj" "/home/u/work" "inj" ["-n", ""] 1 rfl rfl
    (by decide) rfl (by decide)

end Inj
